import Mathlib

/-!
Verification of the async queue processor
(`ex04_async_queue_processor/solution_queue_processor.py`).

The Python subsystem has three parts, each embedded below:

* `InMemoryQueue.receive_batch` — pops up to `batch_size` messages from the
  front of a mutable list.  Embedded as the pure state-passing function
  `receive_batch : Int → List String → List String × List String` returning
  the batch together with the new pending list.

* `await asyncio.gather(*tasks)` — the batch dispatch.  Embedded over an
  abstract completion schedule: each handler invocation carries the instant
  at which it reaches a terminal state and its result.

* `process_queue_forever` — the polling loop with cooperative cancellation.
  Embedded as a fuel-bounded interpreter driven by an oracle that decides,
  at every suspension point, whether a cancellation is delivered and how the
  handlers of the current batch behave.  The interpreter also emits a trace
  of abstract events, which supports the temporal claims.
-/

namespace QueueProc

/-- Embedding of `InMemoryQueue.receive_batch` (lines 25–43 of the source).
The Python method mutates `self.messages` in place; here the new pending
list is the second component of the result.

```
if batch_size <= 0 or not self.messages:
    return []
batch = self.messages[:batch_size]
del self.messages[:batch_size]
return batch
```

On the branch that slices, `batch_size ≥ 1`, and for a positive bound `n`
Python's `xs[:n]` is `take n` and `del xs[:n]` leaves `drop n`. -/
def receive_batch (batch_size : Int) (messages : List String) :
    List String × List String :=
  if batch_size ≤ 0 ∨ messages = [] then ([], messages)
  else (messages.take batch_size.toNat, messages.drop batch_size.toNat)

/-- Python list slicing `xs[:n]` for an arbitrary integer bound `n`: a
negative bound counts from the end (clamped at `0`), a non-negative bound is
clamped at the length.  Total for every integer — slicing never raises. -/
def pyTakeSlice (n : Int) (xs : List String) : List String :=
  if n < 0 then xs.take (xs.length + n).toNat else xs.take n.toNat

/-- Python `del xs[:n]`: what remains of `xs` after deleting the slice
`xs[:n]`.  Total for every integer. -/
def pyDelSlice (n : Int) (xs : List String) : List String :=
  if n < 0 then xs.drop (xs.length + n).toNat else xs.drop n.toNat

/-- Exception-aware embedding of `receive_batch`: every Python operation the
method performs (`await asyncio.sleep`, the comparison, the slice, the slice
deletion) is total, so each step is lifted into `Except` with `pure`.  The
`Except` layer records that the method body contains no failing operation
and no `raise`. -/
def receive_batchE (batch_size : Int) (messages : List String) :
    Except String (List String × List String) := do
  if batch_size ≤ 0 ∨ messages = [] then
    return ([], messages)
  let batch ← pure (pyTakeSlice batch_size messages)
  let remaining ← pure (pyDelSlice batch_size messages)
  return (batch, remaining)

/-- Iterated fetching: run `receive_batch` once per requested size, threading
the pending list through; returns the list of batches in call order and the
final pending list. -/
def runBatches : List Int → List String → List (List String) × List String
  | [], msgs => ([], msgs)
  | b :: bs, msgs =>
    let r := receive_batch b msgs
    let k := runBatches bs r.2
    (r.1 :: k.1, k.2)

/-- Conservation for a single fetch: batch ++ remainder = original pending. -/
theorem receive_batch_append (batch_size : Int) (messages : List String) :
    (receive_batch batch_size messages).1 ++ (receive_batch batch_size messages).2
      = messages := by
  unfold receive_batch
  split
  · simp
  · simp [List.take_append_drop]

/-- Claim C1: for non-negative `batch_size`, `receive_batch` returns exactly
the first `min(batch_size, L)` pending messages in order and leaves exactly
the remaining `L - min(batch_size, L)` behind, in order. -/
theorem c1_fetch_takes_min (batch_size : Int) (messages : List String)
    (h : 0 ≤ batch_size) :
    (receive_batch batch_size messages).1 = messages.take batch_size.toNat
    ∧ (receive_batch batch_size messages).2 = messages.drop batch_size.toNat
    ∧ (receive_batch batch_size messages).1.length
        = min batch_size.toNat messages.length := by
  unfold receive_batch
  split
  · rename_i hc
    rcases hc with hb | hm
    · have hz : batch_size = 0 := le_antisymm hb h
      subst hz
      simp
    · subst hm
      simp
  · simp [List.length_take]

/-- Witness for C1 at `batch_size = 2`, pending `["a", "b", "c"]`. -/
theorem c1_fetch_takes_min_witness :
    (receive_batch 2 ["a", "b", "c"]).1 = ["a", "b", "c"].take (Int.toNat 2)
    ∧ (receive_batch 2 ["a", "b", "c"]).2 = ["a", "b", "c"].drop (Int.toNat 2)
    ∧ (receive_batch 2 ["a", "b", "c"]).1.length
        = min (Int.toNat 2) (["a", "b", "c"].length) :=
  c1_fetch_takes_min 2 ["a", "b", "c"] (by decide)

/-- Claim C5: for `batch_size ≤ 0` the fetch returns the empty batch and the
pending list is unchanged. -/
theorem c5_nonpositive_fetch_noop (batch_size : Int) (messages : List String)
    (h : batch_size ≤ 0) :
    receive_batch batch_size messages = ([], messages) := by
  unfold receive_batch
  rw [if_pos (Or.inl h)]

/-- Witness for C5 at `batch_size = -3`, pending `["a", "b"]`. -/
theorem c5_nonpositive_fetch_noop_witness :
    receive_batch (-3) ["a", "b"] = ([], ["a", "b"]) :=
  c5_nonpositive_fetch_noop (-3) ["a", "b"] (by decide)

/-- Claim C10: a single fetch conserves messages — the returned batch
concatenated with the pending list after the call is exactly the pending
list before the call. -/
theorem c10_fetch_conserves (batch_size : Int) (messages : List String) :
    (receive_batch batch_size messages).1
      ++ (receive_batch batch_size messages).2 = messages :=
  receive_batch_append batch_size messages

/-- Claim C7: `receive_batch` never fails.  The exception-aware embedding,
in which every operation the method performs is modelled with its Python
totality, always returns `Except.ok`, and its value agrees with the pure
embedding. -/
theorem c7_fetch_never_fails (batch_size : Int) (messages : List String) :
    receive_batchE batch_size messages
      = Except.ok (receive_batch batch_size messages) := by
  by_cases hmain : batch_size ≤ 0 ∨ messages = []
  · simp [receive_batchE, receive_batch, hmain, pure, Except.pure]
  · have hb : ¬ batch_size < 0 := by
      rcases not_or.mp hmain with ⟨h1, _⟩
      omega
    simp [receive_batchE, receive_batch, pyTakeSlice, pyDelSlice, hmain, hb, pure, Except.pure, bind, Except.bind]

/-- Conservation for iterated fetching: all batches in call order, flattened,
followed by the final pending list, give back the initial pending list. -/
theorem runBatches_flatten_append (sizes : List Int) (msgs : List String) :
    ((runBatches sizes msgs).1).flatten ++ (runBatches sizes msgs).2 = msgs := by
  induction sizes generalizing msgs with
  | nil => simp [runBatches]
  | cons b bs ih =>
    simp only [runBatches, List.flatten_cons, List.append_assoc]
    rw [ih]
    exact receive_batch_append b msgs

/-- Claim C6: no redelivery.  For a pending list without duplicates, a
message returned by a fetch is gone from the pending list the call leaves
behind, distinct fetches in a call sequence return disjoint batches, and no
returned message survives into the final pending list. -/
theorem c6_no_redelivery (sizes : List Int) (msgs : List String)
    (h : msgs.Nodup) :
    (∀ b : Int, ∀ x ∈ (receive_batch b msgs).1, x ∉ (receive_batch b msgs).2)
    ∧ ((runBatches sizes msgs).1).Pairwise List.Disjoint
    ∧ ∀ batch ∈ (runBatches sizes msgs).1,
        batch.Disjoint (runBatches sizes msgs).2 := by
  have hcat := runBatches_flatten_append sizes msgs
  have hnd : (((runBatches sizes msgs).1).flatten
      ++ (runBatches sizes msgs).2).Nodup := by
    rw [hcat]; exact h
  obtain ⟨hflat, _, hdisj⟩ := List.nodup_append.mp hnd
  refine ⟨?_, ?_, ?_⟩
  · intro b x hx
    have hone : ((receive_batch b msgs).1 ++ (receive_batch b msgs).2).Nodup := by
      rw [receive_batch_append b msgs]; exact h
    exact (List.nodup_append.mp hone).2.2 hx
  · exact (List.nodup_flatten.mp hflat).2
  · intro batch hb x hxb hxfin
    exact hdisj (List.mem_flatten.mpr ⟨batch, hb, hxb⟩) hxfin

/-- Witness for C6 with pending `["a", "b", "c"]` and fetch sizes 1 then 2. -/
theorem c6_no_redelivery_witness :
    (∀ b : Int, ∀ x ∈ (receive_batch b ["a", "b", "c"]).1,
        x ∉ (receive_batch b ["a", "b", "c"]).2)
    ∧ ((runBatches [1, 2] ["a", "b", "c"]).1).Pairwise List.Disjoint
    ∧ ∀ batch ∈ (runBatches [1, 2] ["a", "b", "c"]).1,
        batch.Disjoint (runBatches [1, 2] ["a", "b", "c"]).2 :=
  c6_no_redelivery [1, 2] ["a", "b", "c"] (by decide)

/-- One handler invocation as the dispatcher observes it: the instant at
which the underlying task reaches a terminal state, and its result at that
instant (`ok` for a normal return of the coroutine, `error` when it raised). -/
structure Invocation (E : Type) where
  time : Nat
  result : Except E Unit

/-- Whether an invocation ended by raising an exception. -/
def Invocation.failed {E : Type} (i : Invocation E) : Bool :=
  match i.result with
  | Except.error _ => true
  | Except.ok _ => false

/-- The failing invocation whose exception `asyncio.gather` propagates: the
one that raises earliest, ties going to the earlier position in the task
list.  `none` when no invocation fails. -/
def firstFailure {E : Type} (invs : List (Invocation E)) :
    Option (Invocation E) :=
  (invs.filter (fun i => i.failed)).argmin (fun i => i.time)

/-- The instant at which the last invocation of the batch settles. -/
def maxSettleTime {E : Type} (invs : List (Invocation E)) : Nat :=
  invs.foldr (fun i acc => max i.time acc) 0

/-- Embedding of `await asyncio.gather(*tasks)` (line 69 of the source) with
the default `return_exceptions=False`, per the documented semantics of
`asyncio.gather`: if all awaitables complete successfully the awaiter
resumes once every one has settled, with an aggregate success; if some
awaitable raises, the first raised exception is propagated immediately to
the awaiter — at the instant that invocation settles — and the remaining
awaitables are not waited for.  The result is the pair (instant at which
the `await` resumes, outcome it delivers). -/
def gatherDispatch {E : Type} (invs : List (Invocation E)) :
    Nat × Except E Unit :=
  match firstFailure invs with
  | some j => (j.time, j.result)
  | none => (maxSettleTime invs, Except.ok ())

/-- `firstFailure` is `none` exactly when no invocation failed. -/
theorem firstFailure_eq_none {E : Type} (invs : List (Invocation E)) :
    firstFailure invs = none ↔ ∀ i ∈ invs, i.failed = false := by
  unfold firstFailure
  rw [List.argmin_eq_none, List.filter_eq_nil_iff]
  constructor
  · intro h i hi
    have hni := h i hi
    cases hif : i.failed
    · rfl
    · exact absurd hif (by simpa using hni)
  · intro h i hi
    simp [h i hi]

/-- When `firstFailure` returns an invocation, it is a failing member of the
list with the least settle time among failing members. -/
theorem firstFailure_spec {E : Type} (invs : List (Invocation E))
    (j : Invocation E) (hf : firstFailure invs = some j) :
    j ∈ invs ∧ j.failed = true
      ∧ ∀ k ∈ invs, k.failed = true → j.time ≤ k.time := by
  unfold firstFailure at hf
  have hjmem : j ∈ invs.filter (fun i => i.failed) :=
    List.argmin_mem (Option.mem_def.mpr hf)
  obtain ⟨hj, hjf⟩ := List.mem_filter.mp hjmem
  refine ⟨hj, hjf, ?_⟩
  intro k hk hkf
  have hkmem : k ∈ invs.filter (fun i => i.failed) :=
    List.mem_filter.mpr ⟨hk, hkf⟩
  exact List.le_of_mem_argmin hkmem (Option.mem_def.mpr hf)

/-- Counterexample for claim C2 as stated: a batch whose first invocation
raises at instant 1 while its sibling succeeds at instant 5.  A failure
occurs, yet the dispatch resumes the awaiter at instant 1, before the
sibling has reached a terminal state — so it is false that failure is
reported only after every invocation is terminal. -/
theorem c2_counterexample :
    (∃ i ∈ ([⟨1, Except.error "boom"⟩, ⟨5, Except.ok ()⟩] :
        List (Invocation String)), i.failed = true)
    ∧ ¬ (∀ i ∈ ([⟨1, Except.error "boom"⟩, ⟨5, Except.ok ()⟩] :
        List (Invocation String)),
          i.time ≤ (gatherDispatch
            ([⟨1, Except.error "boom"⟩, ⟨5, Except.ok ()⟩] :
              List (Invocation String))).1) := by
  decide

/-- Claim C2 (amended): when one or more handler invocations fail, the
dispatch reports the first failure observed in the order the invocations
reached a terminal state, and it reports it at the instant that failing
invocation settles — possibly before slower sibling invocations have
reached a terminal state, which `asyncio.gather` does not wait for. -/
theorem c2_first_failure_reported {E : Type} (invs : List (Invocation E))
    (h : ∃ i ∈ invs, i.failed = true) :
    ∃ j ∈ invs, j.failed = true
      ∧ gatherDispatch invs = (j.time, j.result)
      ∧ (∃ e, j.result = Except.error e)
      ∧ ∀ k ∈ invs, k.failed = true → j.time ≤ k.time := by
  cases hf : firstFailure invs with
  | none =>
    exfalso
    obtain ⟨i, hi, hif⟩ := h
    have := (firstFailure_eq_none invs).mp hf i hi
    rw [this] at hif
    exact Bool.noConfusion hif
  | some j =>
    obtain ⟨hmem, hfail, hmin⟩ := firstFailure_spec invs j hf
    refine ⟨j, hmem, hfail, ?_, ?_, hmin⟩
    · unfold gatherDispatch
      rw [hf]
    · cases hr : j.result with
      | error e => exact ⟨e, rfl⟩
      | ok u =>
        exfalso
        unfold Invocation.failed at hfail
        rw [hr] at hfail
        exact Bool.noConfusion hfail

/-- Witness for the amended C2 on the counterexample batch. -/
theorem c2_first_failure_reported_witness :
    ∃ j ∈ ([⟨1, Except.error "boom"⟩, ⟨5, Except.ok ()⟩] :
        List (Invocation String)), j.failed = true
      ∧ gatherDispatch ([⟨1, Except.error "boom"⟩, ⟨5, Except.ok ()⟩] :
          List (Invocation String)) = (j.time, j.result)
      ∧ (∃ e, j.result = Except.error e)
      ∧ ∀ k ∈ ([⟨1, Except.error "boom"⟩, ⟨5, Except.ok ()⟩] :
          List (Invocation String)), k.failed = true → j.time ≤ k.time :=
  c2_first_failure_reported _ (by decide)

/-- Claim C9: dispatching a batch of size K in which every handler
invocation succeeds creates exactly one task per message — K invocations —
and the dispatch reports overall success. -/
theorem c9_success_dispatch {E : Type} (batch : List String)
    (handler : String → Invocation E)
    (hok : ∀ m ∈ batch, (handler m).failed = false) :
    (batch.map handler).length = batch.length
    ∧ (gatherDispatch (batch.map handler)).2 = Except.ok () := by
  constructor
  · exact List.length_map batch handler
  · have hnone : firstFailure (batch.map handler) = none := by
      refine (firstFailure_eq_none _).mpr ?_
      intro i hi
      obtain ⟨m, hm, rfl⟩ := List.mem_map.mp hi
      exact hok m hm
    unfold gatherDispatch
    rw [hnone]

/-- Witness for C9: a two-message batch whose handler always succeeds at
instant 0. -/
theorem c9_success_dispatch_witness :
    ((["a", "b"].map (fun _ => (⟨0, Except.ok ()⟩ : Invocation String))).length
        = (["a", "b"] : List String).length)
    ∧ (gatherDispatch
        (["a", "b"].map (fun _ => (⟨0, Except.ok ()⟩ : Invocation String)))).2
      = Except.ok () :=
  c9_success_dispatch ["a", "b"] (fun _ => ⟨0, Except.ok ()⟩)
    (by intro m hm; rfl)

/-- How `process_queue_forever` exits: `returned` is the normal return at
the end of the function body (reached only through the
`except asyncio.CancelledError` arm), `raised e` is an exception `e`
escaping the function, `outOfFuel` means the bounded interpreter ran out of
fuel with the loop still running (the Python loop is `while True`). -/
inductive Outcome (E : Type)
  | returned
  | raised (e : E)
  | outOfFuel

/-- Abstract events emitted while interpreting the loop, each tagged with
the index of the loop iteration that produced it. -/
inductive Ev
  | fetch (n : Nat) (batch : List String)
  | handlerSettled (n : Nat)
  | dispatchSettled (n : Nat)
  | sleepDone (n : Nat)
  | cancelObserved (n : Nat)
  | errorRaised (n : Nat)
  deriving DecidableEq

/-- The iteration index an event is tagged with. -/
def evIdx : Ev → Nat
  | Ev.fetch n _ => n
  | Ev.handlerSettled n => n
  | Ev.dispatchSettled n => n
  | Ev.sleepDone n => n
  | Ev.cancelObserved n => n
  | Ev.errorRaised n => n

/-- The environment's choices for one iteration of the loop: whether a
cancellation is delivered at each of the three suspension points of the
body (the fetch `await`, the back-off `asyncio.sleep`, and the `await
asyncio.gather`), and how each handler coroutine started on line 68
behaves. -/
structure IterSched (E : Type) where
  fetchCancel : Bool
  sleepCancel : Bool
  dispatchCancel : Bool
  handler : String → Invocation E

/-- Result of one pass of the `while True` body: either the function halts
(a cancellation was caught, or a handler error escaped), or the loop
continues with the remaining pending messages. -/
inductive IterOut (E : Type)
  | halt (outcome : Outcome E) (evs : List Ev)
  | step (evs : List Ev) (pending : List String)

/-- The events a pass of the body emits. -/
def IterOut.events {E : Type} : IterOut E → List Ev
  | IterOut.halt _ evs => evs
  | IterOut.step evs _ => evs

/-- One pass of the `while True` body of `process_queue_forever`
(lines 61–69), at iteration index `n`:

* `batch = await queue.receive_batch(batch_size)` — if a cancellation is
  delivered here, `CancelledError` reaches the `try` and is caught: the
  function returns normally;
* `if not batch:` — an empty batch sleeps for the poll interval (also a
  cancellation point) and continues;
* otherwise `tasks = [handler(message) for message in batch]` followed by
  `await asyncio.gather(*tasks)` — a cancellation delivered here is caught
  the same way; a handler exception propagated by `gather` is not caught
  (the `except` arm only matches `CancelledError`) and escapes the
  function; on success all invocations have settled and the loop
  continues. -/
def loopIter {E : Type} (batch_size : Int) (n : Nat) (s : IterSched E)
    (msgs : List String) : IterOut E :=
  if s.fetchCancel then IterOut.halt Outcome.returned [Ev.cancelObserved n]
  else if (receive_batch batch_size msgs).1.isEmpty then
    if s.sleepCancel then
      IterOut.halt Outcome.returned
        [Ev.fetch n (receive_batch batch_size msgs).1, Ev.cancelObserved n]
    else
      IterOut.step
        [Ev.fetch n (receive_batch batch_size msgs).1, Ev.sleepDone n]
        (receive_batch batch_size msgs).2
  else if s.dispatchCancel then
    IterOut.halt Outcome.returned
      [Ev.fetch n (receive_batch batch_size msgs).1, Ev.cancelObserved n]
  else
    match (gatherDispatch ((receive_batch batch_size msgs).1.map s.handler)).2 with
    | Except.error e =>
      IterOut.halt (Outcome.raised e)
        [Ev.fetch n (receive_batch batch_size msgs).1, Ev.errorRaised n]
    | Except.ok _ =>
      IterOut.step
        (Ev.fetch n (receive_batch batch_size msgs).1 ::
          (List.replicate (receive_batch batch_size msgs).1.length
              (Ev.handlerSettled n)
            ++ [Ev.dispatchSettled n]))
        (receive_batch batch_size msgs).2

/-- Fuel-bounded interpreter for `process_queue_forever` (lines 46–72).
The schedule list supplies the environment's choices for each successive
iteration; the iteration counter `n` tags emitted events.  Running out of
fuel or out of schedule stops the interpretation with `outOfFuel` — the
Python loop itself never exits on that path. -/
def process_queue_forever {E : Type} (batch_size : Int) :
    Nat → Nat → List (IterSched E) → List String → Outcome E × List Ev
  | 0, _, _, _ => (Outcome.outOfFuel, [])
  | _ + 1, _, [], _ => (Outcome.outOfFuel, [])
  | fuel + 1, n, s :: rest, msgs =>
    match loopIter batch_size n s msgs with
    | IterOut.halt o evs => (o, evs)
    | IterOut.step evs pending =>
      let k := process_queue_forever batch_size fuel (n + 1) rest pending
      (k.1, evs ++ k.2)

/-- Every event one pass of the body emits is tagged with that pass's
iteration index. -/
theorem loopIter_events_idx {E : Type} (batch_size : Int) (n : Nat)
    (s : IterSched E) (msgs : List String) :
    ∀ ev ∈ (loopIter batch_size n s msgs).events, evIdx ev = n := by
  intro ev hev
  unfold loopIter at hev
  by_cases hfc : s.fetchCancel = true
  · rw [if_pos hfc] at hev
    simp [IterOut.events] at hev
    subst hev
    rfl
  · rw [if_neg hfc] at hev
    by_cases hemp : (receive_batch batch_size msgs).1.isEmpty = true
    · rw [if_pos hemp] at hev
      by_cases hsc : s.sleepCancel = true
      · rw [if_pos hsc] at hev
        simp [IterOut.events] at hev
        rcases hev with rfl | rfl <;> rfl
      · rw [if_neg hsc] at hev
        simp [IterOut.events] at hev
        rcases hev with rfl | rfl <;> rfl
    · rw [if_neg hemp] at hev
      by_cases hdc : s.dispatchCancel = true
      · rw [if_pos hdc] at hev
        simp [IterOut.events] at hev
        rcases hev with rfl | rfl <;> rfl
      · rw [if_neg hdc] at hev
        cases hg : (gatherDispatch
            ((receive_batch batch_size msgs).1.map s.handler)).2 with
        | error e =>
          rw [hg] at hev
          simp [IterOut.events] at hev
          rcases hev with rfl | rfl <;> rfl
        | ok u =>
          rw [hg] at hev
          simp [IterOut.events, List.mem_replicate, List.mem_append] at hev
          rcases hev with rfl | ⟨-, rfl⟩ | rfl <;> rfl

/-- A list of events all tagged with one index is ordered by index. -/
theorem pairwise_le_of_const_idx (l : List Ev) (n : Nat)
    (h : ∀ a ∈ l, evIdx a = n) :
    l.Pairwise (fun a b => evIdx a ≤ evIdx b) := by
  refine List.pairwise_of_forall_mem_list ?_
  intro a ha b hb
  rw [h a ha, h b hb]

/-- Events in the trace of a run started at iteration counter `n` are all
tagged with an index of at least `n`. -/
theorem process_trace_idx_ge {E : Type} (batch_size : Int) :
    ∀ (fuel n : Nat) (scheds : List (IterSched E)) (msgs : List String),
      ∀ ev ∈ (process_queue_forever batch_size fuel n scheds msgs).2,
        n ≤ evIdx ev := by
  intro fuel
  induction fuel with
  | zero =>
    intro n scheds msgs ev hev
    simp [process_queue_forever] at hev
  | succ fuel ih =>
    intro n scheds msgs ev hev
    cases scheds with
    | nil => simp [process_queue_forever] at hev
    | cons s rest =>
      unfold process_queue_forever at hev
      cases hit : loopIter batch_size n s msgs with
      | halt o evs =>
        rw [hit] at hev
        simp only at hev
        have := loopIter_events_idx batch_size n s msgs ev
        rw [hit] at this
        exact le_of_eq (this hev).symm
      | step evs pending =>
        rw [hit] at hev
        simp only at hev
        rcases List.mem_append.mp hev with hl | hr
        · have := loopIter_events_idx batch_size n s msgs ev
          rw [hit] at this
          exact le_of_eq (this hl).symm
        · exact le_trans (Nat.le_succ n) (ih (n + 1) rest pending ev hr)

/-- The trace of a run is sorted by iteration index: an event of a later
iteration never precedes an event of an earlier one. -/
theorem process_trace_sorted {E : Type} (batch_size : Int) :
    ∀ (fuel n : Nat) (scheds : List (IterSched E)) (msgs : List String),
      ((process_queue_forever batch_size fuel n scheds msgs).2).Pairwise
        (fun a b => evIdx a ≤ evIdx b) := by
  intro fuel
  induction fuel with
  | zero =>
    intro n scheds msgs
    simp [process_queue_forever]
  | succ fuel ih =>
    intro n scheds msgs
    cases scheds with
    | nil => simp [process_queue_forever]
    | cons s rest =>
      unfold process_queue_forever
      cases hit : loopIter batch_size n s msgs with
      | halt o evs =>
        simp only
        have := loopIter_events_idx batch_size n s msgs
        rw [hit] at this
        exact pairwise_le_of_const_idx evs n this
      | step evs pending =>
        simp only
        rw [List.pairwise_append]
        have hidx := loopIter_events_idx batch_size n s msgs
        rw [hit] at hidx
        refine ⟨pairwise_le_of_const_idx evs n hidx, ih (n + 1) rest pending, ?_⟩
        intro a ha b hb
        rw [hidx a ha]
        exact le_trans (Nat.le_succ n)
          (process_trace_idx_ge batch_size fuel (n + 1) rest pending b hb)

/-- Claim C8: no overlap between consecutive batches.  In every trace of
the loop, every handler settlement and every dispatch join of an earlier
iteration occurs strictly before the fetch of any later iteration — fetch
N+1 never starts until dispatch N has fully settled. -/
theorem c8_no_batch_overlap {E : Type} (batch_size : Int) (fuel : Nat)
    (scheds : List (IterSched E)) (msgs : List String)
    (i j n m : Nat) (batch : List String)
    (hi : i < ((process_queue_forever batch_size fuel 0 scheds msgs).2).length)
    (hj : j < ((process_queue_forever batch_size fuel 0 scheds msgs).2).length)
    (hfetch : ((process_queue_forever batch_size fuel 0 scheds msgs).2).get
        ⟨i, hi⟩ = Ev.fetch n batch)
    (hev : ((process_queue_forever batch_size fuel 0 scheds msgs).2).get
          ⟨j, hj⟩ = Ev.handlerSettled m
      ∨ ((process_queue_forever batch_size fuel 0 scheds msgs).2).get
          ⟨j, hj⟩ = Ev.dispatchSettled m)
    (hmn : m < n) : j < i := by
  by_contra hji
  push_neg at hji
  simp only [List.get_eq_getElem] at hfetch hev
  have hsorted := process_trace_sorted batch_size fuel 0 scheds msgs
  rcases Nat.lt_or_ge i j with hij | hle
  · have hrel := (List.pairwise_iff_getElem.mp hsorted) i j hi hj hij
    rw [hfetch] at hrel
    rcases hev with h2 | h2 <;> rw [h2] at hrel <;>
      exact absurd hrel (by simpa [evIdx] using Nat.not_le_of_lt hmn)
  · have hij : i = j := le_antisymm hji hle
    subst hij
    rw [hfetch] at hev
    rcases hev with h2 | h2 <;> exact Ev.noConfusion h2

/-- Witness for C8: batch size 1, two iterations over `["a", "b"]` with an
always-succeeding handler.  The trace is `[fetch 0 ["a"], handlerSettled 0,
dispatchSettled 0, fetch 1 ["b"], handlerSettled 1, dispatchSettled 1]`;
the dispatch join of batch 0 (position 2) precedes the fetch of batch 1
(position 3). -/
theorem c8_no_batch_overlap_witness :
    3 < ((process_queue_forever 1 3 0
        ([⟨false, false, false, fun _ => ⟨0, Except.ok ()⟩⟩,
          ⟨false, false, false, fun _ => ⟨0, Except.ok ()⟩⟩] :
            List (IterSched String))
        ["a", "b"]).2).length
    ∧ (2 : Nat) < 3 := by
  refine ⟨by decide, ?_⟩
  exact c8_no_batch_overlap 1 3
    ([⟨false, false, false, fun _ => ⟨0, Except.ok ()⟩⟩,
      ⟨false, false, false, fun _ => ⟨0, Except.ok ()⟩⟩] :
        List (IterSched String))
    ["a", "b"] 3 2 1 0 ["b"] (by decide) (by decide) (by decide)
    (Or.inr (by decide)) (by decide)

/-- If a pass of the body halts the function with a cancellation
observation as its final event, the function halts by returning normally. -/
theorem loopIter_halt_cancel {E : Type} (batch_size : Int) (n : Nat)
    (s : IterSched E) (msgs : List String) (o : Outcome E) (evs : List Ev)
    (k : Nat) (hit : loopIter batch_size n s msgs = IterOut.halt o evs)
    (hlast : evs.getLast? = some (Ev.cancelObserved k)) :
    o = Outcome.returned := by
  unfold loopIter at hit
  by_cases hfc : s.fetchCancel = true
  · rw [if_pos hfc] at hit
    injection hit with h1 h2
    exact h1.symm
  · rw [if_neg hfc] at hit
    by_cases hemp : (receive_batch batch_size msgs).1.isEmpty = true
    · rw [if_pos hemp] at hit
      by_cases hsc : s.sleepCancel = true
      · rw [if_pos hsc] at hit
        injection hit with h1 h2
        exact h1.symm
      · rw [if_neg hsc] at hit
        exact IterOut.noConfusion hit
    · rw [if_neg hemp] at hit
      by_cases hdc : s.dispatchCancel = true
      · rw [if_pos hdc] at hit
        injection hit with h1 h2
        exact h1.symm
      · rw [if_neg hdc] at hit
        cases hg : (gatherDispatch
            ((receive_batch batch_size msgs).1.map s.handler)).2 with
        | error e =>
          rw [hg] at hit
          injection hit with h1 h2
          rw [← h2] at hlast
          simp [List.getLast?] at hlast
        | ok u =>
          rw [hg] at hit
          exact IterOut.noConfusion hit

/-- If a pass of the body lets the loop continue, its final event is the
end of the back-off sleep or the settling of the dispatch join. -/
theorem loopIter_step_last {E : Type} (batch_size : Int) (n : Nat)
    (s : IterSched E) (msgs : List String) (evs : List Ev)
    (pending : List String)
    (hit : loopIter batch_size n s msgs = IterOut.step evs pending) :
    evs.getLast? = some (Ev.sleepDone n)
    ∨ evs.getLast? = some (Ev.dispatchSettled n) := by
  unfold loopIter at hit
  by_cases hfc : s.fetchCancel = true
  · rw [if_pos hfc] at hit
    exact IterOut.noConfusion hit
  · rw [if_neg hfc] at hit
    by_cases hemp : (receive_batch batch_size msgs).1.isEmpty = true
    · rw [if_pos hemp] at hit
      by_cases hsc : s.sleepCancel = true
      · rw [if_pos hsc] at hit
        exact IterOut.noConfusion hit
      · rw [if_neg hsc] at hit
        injection hit with h1 h2
        rw [← h1]
        left
        rfl
    · rw [if_neg hemp] at hit
      by_cases hdc : s.dispatchCancel = true
      · rw [if_pos hdc] at hit
        exact IterOut.noConfusion hit
      · rw [if_neg hdc] at hit
        cases hg : (gatherDispatch
            ((receive_batch batch_size msgs).1.map s.handler)).2 with
        | error e =>
          rw [hg] at hit
          exact IterOut.noConfusion hit
        | ok u =>
          rw [hg] at hit
          injection hit with h1 h2
          rw [← h1]
          right
          rw [← List.cons_append, List.getLast?_append_cons]
          rfl

/-- Claim C3: a cancelled run returns normally.  Whenever a run of the
loop ends with the observation of a delivered cancellation — at whichever
suspension point it was delivered (fetch, back-off sleep, or dispatch
join) — the function's outcome is a normal return, never an error. -/
theorem c3_cancellation_returns {E : Type} (batch_size : Int) :
    ∀ (fuel n : Nat) (scheds : List (IterSched E)) (msgs : List String)
      (k : Nat),
      ((process_queue_forever batch_size fuel n scheds msgs).2).getLast?
          = some (Ev.cancelObserved k) →
      (process_queue_forever batch_size fuel n scheds msgs).1
          = Outcome.returned := by
  intro fuel
  induction fuel with
  | zero =>
    intro n scheds msgs k h
    simp [process_queue_forever] at h
  | succ fuel ih =>
    intro n scheds msgs k h
    cases scheds with
    | nil => simp [process_queue_forever] at h
    | cons s rest =>
      unfold process_queue_forever at h ⊢
      cases hit : loopIter batch_size n s msgs with
      | halt o evs =>
        rw [hit] at h
        dsimp only at h ⊢
        exact loopIter_halt_cancel batch_size n s msgs o evs k hit h
      | step evs pending =>
        rw [hit] at h
        dsimp only at h ⊢
        revert h
        cases h2 : (process_queue_forever batch_size fuel (n + 1) rest pending).2 with
        | nil =>
          intro h
          rw [List.append_nil] at h
          rcases loopIter_step_last batch_size n s msgs evs pending hit with hl | hl <;>
            (rw [hl] at h; simp at h)
        | cons e0 t0 =>
          intro h
          rw [List.getLast?_append_cons] at h
          refine ih (n + 1) rest pending k ?_
          rw [h2]
          exact h

/-- Witness for C3: one iteration with a cancellation delivered during the
fetch; the run's outcome is a normal return. -/
theorem c3_cancellation_returns_witness :
    (process_queue_forever 5 1 0
        ([⟨true, false, false, fun _ => ⟨0, Except.ok ()⟩⟩] :
          List (IterSched String)) ["a"]).1 = Outcome.returned :=
  c3_cancellation_returns 5 1 0
    ([⟨true, false, false, fun _ => ⟨0, Except.ok ()⟩⟩] :
      List (IterSched String)) ["a"] 0 (by decide)

/-- Claim C4: a handler error is not caught by the loop.  If the fetch of
an iteration is not cancelled, yields a non-empty batch, the dispatch is
not cancelled, and the dispatch's outcome is a handler error `e`, then the
whole run ends with `e` escaping to the caller — regardless of how much
fuel or schedule remains, so there is no retry and no log-and-continue. -/
theorem c4_handler_error_propagates {E : Type} (batch_size : Int)
    (fuel n : Nat) (s : IterSched E) (rest : List (IterSched E))
    (msgs : List String) (e : E)
    (hfc : s.fetchCancel = false)
    (hne : (receive_batch batch_size msgs).1 ≠ [])
    (hdc : s.dispatchCancel = false)
    (hfail : (gatherDispatch ((receive_batch batch_size msgs).1.map s.handler)).2
        = Except.error e) :
    (process_queue_forever batch_size (fuel + 1) n (s :: rest) msgs).1
        = Outcome.raised e := by
  have hit : loopIter batch_size n s msgs
      = IterOut.halt (Outcome.raised e)
          [Ev.fetch n (receive_batch batch_size msgs).1, Ev.errorRaised n] := by
    unfold loopIter
    rw [if_neg (by simp [hfc])]
    rw [if_neg (by simpa [List.isEmpty_iff] using hne)]
    rw [if_neg (by simp [hdc])]
    rw [hfail]
  unfold process_queue_forever
  rw [hit]

/-- Witness for C4: batch size 1, one pending message, a handler that
raises at instant 0; the run's outcome is that error escaping. -/
theorem c4_handler_error_propagates_witness :
    (process_queue_forever 1 1 0
        ([⟨false, false, false, fun _ => ⟨0, Except.error "boom"⟩⟩] :
          List (IterSched String)) ["a"]).1 = Outcome.raised "boom" :=
  c4_handler_error_propagates 1 0 0
    ⟨false, false, false, fun _ => ⟨0, Except.error "boom"⟩⟩ [] ["a"] "boom"
    rfl (by decide) rfl rfl

end QueueProc
